import Mathlib

/-!
Shallow embedding of the validation and variable-resolution core of the
hpc-toolkit blueprint compiler (package `config`: `validate.go` and `dict.go`),
together with proofs of its specified properties.

Go strings are embedded as `List Char`; Go maps (`map[string]interface{}`)
as association lists whose key lists are duplicate-free (Go maps cannot hold
a key twice); Go `interface{}` values as the tagged union `GoValue`;
a Go function returning `error` as a function into `Option e`
(`none` = the Go `nil` error, i.e. success).
-/

namespace HpcToolkit

/-- A Go string, embedded as its list of characters. -/
abbrev Str := List Char

/-- Coerce a Lean string literal into the embedding's string type. -/
def strL (s : String) : Str := s.data

/-- Embedding of a dynamically typed Go value (`interface{}` holding data
decoded from YAML): nil, string, bool, number, mapping, or sequence. -/
inductive GoValue where
  | nil : GoValue
  | str (s : Str) : GoValue
  | boolean (b : Bool) : GoValue
  | num (n : Int) : GoValue
  | object (fields : List (Str × GoValue)) : GoValue
  | tuple (elems : List GoValue) : GoValue

/-- Embedding of `map[string]interface{}` as an association list. -/
abbrev GoMap := List (Str × GoValue)

/-- Go map read `m[k]`, as an option: `some v` when the key is present. -/
def lookupKey (m : List (Str × α)) (k : Str) : Option α :=
  match m with
  | [] => none
  | (k', v) :: rest => if k' = k then some v else lookupKey rest k

/-- The list of keys of an embedded Go map. -/
def keysOf (m : List (Str × α)) : List Str := m.map Prod.fst

/-- Embedding of Go `strings.Split(s, sep)` for a one-character separator:
splits the list at every occurrence of the separator, keeping empty pieces. -/
def goSplit (sep : Char) : List Char → List (List Char)
  | [] => [[]]
  | c :: rest =>
    match goSplit sep rest with
    | [] => [[c]]
    | h :: t => if c = sep then [] :: h :: t else (c :: h) :: t

/-- Modelled from the spec: `IsLiteralVariable` (defined in the `config`
package's expansion code, which is not among the provided source files).
Per the spec, a literal variable reference is a string of the exact form
`((scope.name))` with no surrounding characters, and splitting the stripped
body on `.` yields exactly two components (`scope` and `name`); a candidate
whose body has more or fewer dots is not a literal reference this core
recognizes.  So the test is: the string starts with `((`, ends with `))`,
and the body between the delimiters contains exactly one `.`. -/
def IsLiteralVariable (s : Str) : Bool :=
  decide (4 ≤ s.length) && decide (s.take 2 = strL "((") &&
    decide (s.drop (s.length - 2) = strL "))") &&
    decide (((s.drop 2).take (s.length - 4)).count '.' = 1)

/-- Modelled from the spec: `HandleLiteralVariable` (same missing source
file) strips the `((`/`))` delimiters and returns the body `scope.name`. -/
def HandleLiteralVariable (s : Str) : Str :=
  (s.drop 2).take (s.length - 4)

/-- The three failure modes of `getStringValue`, tagging the error strings
built by the Go code. -/
inductive GetStringErr where
  /-- Go error "the value %s cannot be cast to a string". -/
  | typeErr : GetStringErr
  /-- Go error "the deployment variable %s is not a string". -/
  | notAString : GetStringErr
  /-- Go error "the value %s is not a deployment variable or was not defined". -/
  | unresolved : GetStringErr
deriving DecidableEq

/-- Embedding of `(dc *DeploymentConfig) getStringValue(inputReference
interface{}) (string, error)` from `validate.go`, reading `dc.Config.Vars`.
The result is `some (Except.ok v)` for a normal return, `some (.error e)`
for an error return, and `none` for the Go run-time panic that the
unguarded indexing `varSlice[0]` / `varSlice[1]` would raise when the
split produces fewer than two components. -/
def getStringValue (vars : GoMap) (inputReference : GoValue) :
    Option (Except GetStringErr Str) :=
  match inputReference with
  | .str varRef =>
    if IsLiteralVariable varRef then
      match goSplit '.' (HandleLiteralVariable varRef) with
      | varSrc :: varName :: _ =>
        if varSrc = strL "var" then
          match lookupKey vars varName with
          | some val =>
            match val with
            | .str valString => some (.ok valString)
            | _ => some (.error .notAString)
          | none => some (.error .unresolved)
        else
          some (.error .unresolved)
      | _ => none
    else
      some (.error .unresolved)
  | _ => some (.error .typeErr)

/-! ### Lemmas about `goSplit` and the literal-reference grammar -/

theorem goSplit_length (sep : Char) (l : List Char) :
    (goSplit sep l).length = l.count sep + 1 := by
  induction l with
  | nil => rfl
  | cons c rest ih =>
    unfold goSplit
    cases h : goSplit sep rest with
    | nil => rw [h] at ih; simp at ih
    | cons hd tl =>
      rw [h] at ih
      show (if c = sep then [] :: hd :: tl else (c :: hd) :: tl).length =
        List.count sep (c :: rest) + 1
      by_cases hc : c = sep
      · rw [if_pos hc, hc, List.count_cons_self]
        simp only [List.length_cons] at *
        omega
      · rw [if_neg hc, List.count_cons_of_ne (fun hh => hc hh.symm)]
        simp only [List.length_cons] at *
        omega

theorem goSplit_of_not_mem (sep : Char) (l : List Char) (h : sep ∉ l) :
    goSplit sep l = [l] := by
  induction l with
  | nil => rfl
  | cons c rest ih =>
    have hc : c ≠ sep := fun hh => h (hh ▸ List.mem_cons_self c rest)
    have hrest : sep ∉ rest := fun hh => h (List.mem_cons_of_mem c hh)
    unfold goSplit
    rw [ih hrest]
    simp [fun hh => hc hh]

theorem goSplit_append (sep : Char) (l₁ l₂ : List Char) (h : sep ∉ l₁) :
    goSplit sep (l₁ ++ sep :: l₂) = l₁ :: goSplit sep l₂ := by
  induction l₁ with
  | nil =>
    simp only [List.nil_append, goSplit]
    cases hsp : goSplit sep l₂ with
    | nil =>
      have := goSplit_length sep l₂
      rw [hsp] at this; simp at this
    | cons hd tl => simp
  | cons c rest ih =>
    have hc : c ≠ sep := fun hh => h (hh ▸ List.mem_cons_self c rest)
    have hrest : sep ∉ rest := fun hh => h (List.mem_cons_of_mem c hh)
    rw [List.cons_append]
    show (match goSplit sep (rest ++ sep :: l₂) with
      | [] => [[c]]
      | h :: t => if c = sep then [] :: h :: t else (c :: h) :: t) =
        (c :: rest) :: goSplit sep l₂
    rw [ih hrest]
    simp [fun hh => hc hh]

theorem count_one_decomp (sep : Char) (l : List Char)
    (h : l.count sep = 1) :
    ∃ l₁ l₂, l = l₁ ++ sep :: l₂ ∧ sep ∉ l₁ ∧ sep ∉ l₂ := by
  induction l with
  | nil => simp at h
  | cons c rest ih =>
    by_cases hc : c = sep
    · have h0 : rest.count sep = 0 := by
        rw [hc, List.count_cons_self] at h; omega
      exact ⟨[], rest, by simp [hc], by simp,
        by rw [← List.count_eq_zero]; exact h0⟩
    · have h1 : rest.count sep = 1 := by
        rwa [List.count_cons_of_ne (fun hh => hc hh.symm)] at h
      obtain ⟨l₁, l₂, heq, h₁, h₂⟩ := ih h1
      refine ⟨c :: l₁, l₂, by rw [heq]; rfl, ?_, h₂⟩
      intro hmem
      rcases List.mem_cons.1 hmem with hh | hh
      · exact hc hh.symm
      · exact h₁ hh

/-- Unpacking the boolean test `IsLiteralVariable`. -/
theorem isLiteralVariable_iff (s : Str) :
    IsLiteralVariable s = true ↔
      4 ≤ s.length ∧ s.take 2 = strL "((" ∧
      s.drop (s.length - 2) = strL "))" ∧
      (HandleLiteralVariable s).count '.' = 1 := by
  simp [IsLiteralVariable, HandleLiteralVariable, and_assoc]

/-- Under the modelled literal-reference grammar the stripped body splits
into exactly two dot-separated components. -/
theorem litSplit_length (s : Str) (h : IsLiteralVariable s = true) :
    (goSplit '.' (HandleLiteralVariable s)).length = 2 := by
  have hcount := ((isLiteralVariable_iff s).1 h).2.2.2
  rw [goSplit_length, hcount]

theorem litSplit_pair (s : Str) (h : IsLiteralVariable s = true) :
    ∃ scope name, goSplit '.' (HandleLiteralVariable s) = [scope, name] := by
  have hlen := litSplit_length s h
  cases hsp : goSplit '.' (HandleLiteralVariable s) with
  | nil => rw [hsp] at hlen; simp at hlen
  | cons a t =>
    cases t with
    | nil => rw [hsp] at hlen; simp at hlen
    | cons b t' =>
      cases t' with
      | nil => exact ⟨a, b, rfl⟩
      | cons c t'' => rw [hsp] at hlen; simp at hlen

/-! ### Claims about `getStringValue` -/

/-- C2: for every global-variable table, `getStringValue` applied to the
string `((var.x.y))` — a reference whose stripped body splits into more than
two dot-separated components — fails with the unresolved-reference error and
does not return a resolved value, no matter which global variables (in
particular `x` or `x.y`, bound to strings) are defined. -/
theorem getStringValue_multiDot_fails (vars : GoMap) :
    getStringValue vars (GoValue.str (strL "((var.x.y))")) =
      some (.error .unresolved) := by
  have h : IsLiteralVariable (strL "((var.x.y))") = false := by decide
  simp [getStringValue, h]

/-- C3: the full case analysis of `getStringValue`: a non-string input fails
with the type error; a literal `var`-scope reference to a global defined as a
string returns that string; to a global defined with a non-string value fails
with the not-a-string (type-mismatch) error; and an absent name, a non-`var`
scope, or a non-reference input fails with the unresolved-reference error. -/
theorem getStringValue_cases (vars : GoMap) :
    (∀ v : GoValue, (∀ s, v ≠ GoValue.str s) →
        getStringValue vars v = some (.error .typeErr)) ∧
    (∀ s scope name, IsLiteralVariable s = true →
        goSplit '.' (HandleLiteralVariable s) = [scope, name] →
        ((scope = strL "var" →
          (∀ w, lookupKey vars name = some (GoValue.str w) →
              getStringValue vars (GoValue.str s) = some (.ok w)) ∧
          (∀ v, lookupKey vars name = some v → (∀ w, v ≠ GoValue.str w) →
              getStringValue vars (GoValue.str s) =
                some (.error .notAString)) ∧
          (lookupKey vars name = none →
              getStringValue vars (GoValue.str s) =
                some (.error .unresolved))) ∧
        (scope ≠ strL "var" →
            getStringValue vars (GoValue.str s) =
              some (.error .unresolved)))) ∧
    (∀ s, IsLiteralVariable s = false →
        getStringValue vars (GoValue.str s) = some (.error .unresolved)) := by
  refine ⟨?_, ?_, ?_⟩
  · intro v hv
    cases v with
    | str s => exact absurd rfl (hv s)
    | nil => rfl
    | boolean b => rfl
    | num n => rfl
    | object f => rfl
    | tuple e => rfl
  · intro s scope name hlit hsplit
    constructor
    · intro hscope
      refine ⟨?_, ?_, ?_⟩
      · intro w hw
        simp [getStringValue, hlit, hsplit, hscope, hw]
      · intro v hlk hne
        cases v with
        | str w => exact absurd rfl (hne w)
        | nil => simp [getStringValue, hlit, hsplit, hscope, hlk]
        | boolean b => simp [getStringValue, hlit, hsplit, hscope, hlk]
        | num n => simp [getStringValue, hlit, hsplit, hscope, hlk]
        | object f => simp [getStringValue, hlit, hsplit, hscope, hlk]
        | tuple e => simp [getStringValue, hlit, hsplit, hscope, hlk]
      · intro hlk
        simp [getStringValue, hlit, hsplit, hscope, hlk]
    · intro hscope
      simp [getStringValue, hlit, hsplit, hscope]
  · intro s h
    simp [getStringValue, h]

/-- Witness for C3 at concrete inputs. -/
theorem getStringValue_cases_witness :
    getStringValue [(strL "x", GoValue.str (strL "ok")),
        (strL "n", GoValue.num 3)] (GoValue.num 7) =
      some (.error .typeErr) ∧
    getStringValue [(strL "x", GoValue.str (strL "ok")),
        (strL "n", GoValue.num 3)] (GoValue.str (strL "((var.x))")) =
      some (.ok (strL "ok")) ∧
    getStringValue [(strL "x", GoValue.str (strL "ok")),
        (strL "n", GoValue.num 3)] (GoValue.str (strL "((var.n))")) =
      some (.error .notAString) ∧
    getStringValue [(strL "x", GoValue.str (strL "ok")),
        (strL "n", GoValue.num 3)] (GoValue.str (strL "((var.z))")) =
      some (.error .unresolved) ∧
    getStringValue [(strL "x", GoValue.str (strL "ok")),
        (strL "n", GoValue.num 3)] (GoValue.str (strL "((foo.x))")) =
      some (.error .unresolved) ∧
    getStringValue [(strL "x", GoValue.str (strL "ok")),
        (strL "n", GoValue.num 3)] (GoValue.str (strL "hello")) =
      some (.error .unresolved) := by
  have h := getStringValue_cases [(strL "x", GoValue.str (strL "ok")),
    (strL "n", GoValue.num 3)]
  refine ⟨h.1 (GoValue.num 7) (fun s hs => by cases hs), ?_, ?_, ?_, ?_,
    h.2.2 (strL "hello") (by rfl)⟩
  · exact ((h.2.1 (strL "((var.x))") (strL "var") (strL "x")
      (by rfl) (by rfl)).1 rfl).1 (strL "ok") (by rfl)
  · exact ((h.2.1 (strL "((var.n))") (strL "var") (strL "n")
      (by rfl) (by rfl)).1 rfl).2.1 (GoValue.num 3) (by rfl)
      (fun w hw => by cases hw)
  · exact ((h.2.1 (strL "((var.z))") (strL "var") (strL "z")
      (by rfl) (by rfl)).1 rfl).2.2 (by rfl)
  · exact (h.2.1 (strL "((foo.x))") (strL "foo") (strL "x")
      (by rfl) (by rfl)).2 (by decide)

/-- C10: `getStringValue` never reaches the out-of-range indexing: on every
input it produces an answer (never the panic marker `none`), and for every
string accepted as a literal variable reference the split of its stripped
body has at least two components, so `varSlice[0]` and `varSlice[1]` are in
range; in particular a string `((name))` with no dot in the body is not
accepted as a literal reference. -/
theorem getStringValue_no_panic (vars : GoMap) :
    (∀ ref, (getStringValue vars ref).isSome = true) ∧
    (∀ s, IsLiteralVariable s = true →
        2 ≤ (goSplit '.' (HandleLiteralVariable s)).length) := by
  constructor
  · intro ref
    cases ref with
    | str s =>
      by_cases hlit : IsLiteralVariable s
      · obtain ⟨scope, name, hsp⟩ := litSplit_pair s hlit
        by_cases hscope : scope = strL "var"
        · cases hlk : lookupKey vars name with
          | none => simp [getStringValue, hlit, hsp, hscope, hlk]
          | some v =>
            cases v <;> simp [getStringValue, hlit, hsp, hscope, hlk]
        · simp [getStringValue, hlit, hsp, hscope]
      · simp [getStringValue, hlit]
    | nil => rfl
    | boolean b => rfl
    | num n => rfl
    | object f => rfl
    | tuple e => rfl
  · intro s h
    have := litSplit_length s h
    omega

/-- Witness for C10 at a concrete input. -/
theorem getStringValue_no_panic_witness :
    (getStringValue [] (GoValue.str (strL "((var.p))"))).isSome = true ∧
    2 ≤ (goSplit '.' (HandleLiteralVariable (strL "((var.p))"))).length :=
  ⟨(getStringValue_no_panic []).1 (GoValue.str (strL "((var.p))")),
    (getStringValue_no_panic []).2 (strL "((var.p))") (by rfl)⟩

/-! ### The validator registry and runner (`executeValidators`,
`testInputList` from `validate.go`)

The registry built by `getValidators` maps validator names to checks whose
outcome depends on external collaborators (remote existence tests), so the
runner is embedded with the registry as an explicit parameter: an
association list from name to a check returning `none` for success or
`some msg` for a failed check.  The runner's state additionally records the
list of checks actually invoked, in order — the observable "side effects"
the spec speaks about. -/

/-- Embedding of the `ValidationLevel` policy enumeration
(`validationError` / `validationWarning` / `validationIgnore`). -/
inductive ValidationLevel where
  | error : ValidationLevel
  | warning : ValidationLevel
  | ignore : ValidationLevel
deriving DecidableEq

/-- Embedding of `validatorConfig`: a validator name and its inputs map. -/
structure validatorConfig where
  Validator : Str
  Inputs : GoMap

/-- A registered check: returns `none` (Go `nil`) on success. -/
abbrev ValidatorImpl := validatorConfig → Option Str

/-- The registry `implementedValidators` built by `getValidators`. -/
abbrev ValidatorRegistry := List (Str × ValidatorImpl)

/-- The mutable state of the `executeValidators` loop, extended with the
trace of the checks it invoked (in document order). -/
structure RunnerState where
  invocations : List validatorConfig
  errored : Bool
  warned : Bool

/-- The Go constant `validationErrorMsg`. -/
def validationErrorMsg : Str :=
  strL "validation failed due to the issues listed above"

/-- One iteration of the `executeValidators` loop body. -/
def runnerStep (impl : ValidatorRegistry) (level : ValidationLevel)
    (st : RunnerState) (validator : validatorConfig) : RunnerState :=
  match lookupKey impl validator.Validator with
  | some f =>
    let st' := { st with invocations := st.invocations ++ [validator] }
    match f validator with
    | some _ =>
      match level with
      | .warning => { st' with warned := true }
      | _ => { st' with errored := true }
    | none => st'
  | none => { st with errored := true }

/-- The `for _, validator := range dc.Config.Validators` loop. -/
def runnerLoop (impl : ValidatorRegistry) (level : ValidationLevel) :
    List validatorConfig → RunnerState → RunnerState
  | [], st => st
  | v :: rest, st => runnerLoop impl level rest (runnerStep impl level st v)

/-- Embedding of `(dc DeploymentConfig) executeValidators() error`,
parameterized by the registry, the policy, and the configured validators. -/
def executeValidators (impl : ValidatorRegistry) (level : ValidationLevel)
    (validators : List validatorConfig) : RunnerState × Option Str :=
  if level = .ignore then
    ({ invocations := [], errored := false, warned := false }, none)
  else
    let st := runnerLoop impl level validators
      { invocations := [], errored := false, warned := false }
    (st, if st.errored then some validationErrorMsg else none)

/-- Whether processing one configured validator results in an
ERROR-severity outcome: its name is unregistered, or its check fails while
the policy is not WARNING. -/
def outcomeErrored (impl : ValidatorRegistry) (level : ValidationLevel)
    (v : validatorConfig) : Bool :=
  match lookupKey impl v.Validator with
  | some f => (f v).isSome && decide (level ≠ .warning)
  | none => true

theorem runnerLoop_invocations (impl : ValidatorRegistry)
    (level : ValidationLevel) (vs : List validatorConfig)
    (st : RunnerState) :
    (runnerLoop impl level vs st).invocations =
      st.invocations ++
        vs.filter (fun v => (lookupKey impl v.Validator).isSome) := by
  induction vs generalizing st with
  | nil => simp [runnerLoop]
  | cons v rest ih =>
    rw [runnerLoop, ih]
    unfold runnerStep
    cases hlk : lookupKey impl v.Validator with
    | none => simp [hlk, List.filter_cons]
    | some f =>
      cases hf : f v with
      | none => simp [hlk, hf, List.filter_cons]
      | some e =>
        cases level <;> simp [hlk, hf, List.filter_cons]

theorem runnerLoop_errored (impl : ValidatorRegistry)
    (level : ValidationLevel) (vs : List validatorConfig)
    (st : RunnerState) :
    (runnerLoop impl level vs st).errored =
      (st.errored || vs.any (outcomeErrored impl level)) := by
  induction vs generalizing st with
  | nil => simp [runnerLoop]
  | cons v rest ih =>
    rw [runnerLoop, ih]
    unfold runnerStep outcomeErrored
    cases hlk : lookupKey impl v.Validator with
    | none => simp [hlk, Bool.or_assoc]
    | some f =>
      cases hf : f v with
      | none => simp [hlk, hf]
      | some e =>
        cases level <;> simp [hlk, hf, Bool.or_assoc]

/-- C1: under IGNORE, `executeValidators` returns nil at once and invokes
no check; under any other policy it invokes exactly the registered
configured validators, in document order, without stopping early, and it
returns an error if and only if some configured validator produced an
ERROR-severity outcome — under WARNING, a failing registered check alone
never produces the error return (only an unregistered name does). -/
theorem executeValidators_policy (impl : ValidatorRegistry)
    (level : ValidationLevel) (validators : List validatorConfig) :
    (level = .ignore →
      executeValidators impl level validators =
        ({ invocations := [], errored := false, warned := false }, none)) ∧
    (level ≠ .ignore →
      (executeValidators impl level validators).1.invocations =
        validators.filter (fun v => (lookupKey impl v.Validator).isSome) ∧
      ((executeValidators impl level validators).2.isSome = true ↔
        ∃ v ∈ validators, outcomeErrored impl level v = true)) ∧
    (level = .warning →
      ((executeValidators impl level validators).2.isSome = true ↔
        ∃ v ∈ validators, lookupKey impl v.Validator = none)) := by
  have key : ∀ hlv : level ≠ .ignore,
      ((executeValidators impl level validators).2.isSome = true ↔
        ∃ v ∈ validators, outcomeErrored impl level v = true) := by
    intro hlv
    simp only [executeValidators, if_neg hlv]
    rw [runnerLoop_errored]
    simp only [Bool.false_or]
    by_cases hany : ∃ v ∈ validators, outcomeErrored impl level v = true
    · have hb : List.any validators (outcomeErrored impl level) = true :=
        List.any_eq_true.2 hany
      rw [hb]
      simp [hany]
    · have hb : List.any validators (outcomeErrored impl level) = false := by
        rw [← Bool.not_eq_true, List.any_eq_true]
        exact fun hh => hany hh
      rw [hb]
      simp [hany]
  refine ⟨?_, ?_, ?_⟩
  · intro h
    simp [executeValidators, h]
  · intro h
    refine ⟨?_, key h⟩
    simp only [executeValidators, if_neg h]
    rw [runnerLoop_invocations]
    simp
  · intro h
    subst h
    rw [key (by decide)]
    constructor
    · rintro ⟨v, hv, hout⟩
      refine ⟨v, hv, ?_⟩
      unfold outcomeErrored at hout
      cases hlk : lookupKey impl v.Validator with
      | none => rfl
      | some f => rw [hlk] at hout; simp at hout
    · rintro ⟨v, hv, hlk⟩
      refine ⟨v, hv, ?_⟩
      unfold outcomeErrored
      rw [hlk]

/-- An empty validator registry, used by concrete witnesses. -/
def emptyRegistry : ValidatorRegistry := []

/-- A concrete configured validator, used by concrete witnesses. -/
def sampleCfg : validatorConfig := { Validator := strL "v", Inputs := [] }

/-- Witness for C1 at concrete inputs: an IGNORE run and a WARNING run. -/
theorem executeValidators_policy_witness :
    executeValidators emptyRegistry ValidationLevel.ignore [sampleCfg] =
      ({ invocations := [], errored := false, warned := false }, none) ∧
    ((executeValidators emptyRegistry ValidationLevel.warning
        [sampleCfg]).1.invocations =
      List.filter (fun v => (lookupKey emptyRegistry v.Validator).isSome)
        [sampleCfg] ∧
     ((executeValidators emptyRegistry ValidationLevel.warning
        [sampleCfg]).2.isSome = true ↔
       ∃ v ∈ [sampleCfg],
         outcomeErrored emptyRegistry ValidationLevel.warning v = true)) ∧
    ((executeValidators emptyRegistry ValidationLevel.warning
        [sampleCfg]).2.isSome = true ↔
      ∃ v ∈ [sampleCfg], lookupKey emptyRegistry v.Validator = none) :=
  ⟨(executeValidators_policy emptyRegistry ValidationLevel.ignore
      [sampleCfg]).1 rfl,
   (executeValidators_policy emptyRegistry ValidationLevel.warning
      [sampleCfg]).2.1 (by decide),
   (executeValidators_policy emptyRegistry ValidationLevel.warning
      [sampleCfg]).2.2 rfl⟩

/-- C5: under any policy other than IGNORE, a configured validator whose
name is not registered makes `executeValidators` record an ERROR-severity
outcome and return an error — in particular under WARNING. -/
theorem executeValidators_unimplemented (impl : ValidatorRegistry)
    (level : ValidationLevel) (validators : List validatorConfig)
    (v : validatorConfig) (hlevel : level ≠ .ignore) (hv : v ∈ validators)
    (hunreg : lookupKey impl v.Validator = none) :
    (executeValidators impl level validators).1.errored = true ∧
    (executeValidators impl level validators).2.isSome = true := by
  have hout : outcomeErrored impl level v = true := by
    unfold outcomeErrored
    rw [hunreg]
  have hany : List.any validators (outcomeErrored impl level) = true :=
    List.any_eq_true.2 ⟨v, hv, hout⟩
  constructor
  · simp only [executeValidators, if_neg hlevel]
    rw [runnerLoop_errored]
    simp [hany]
  · simp only [executeValidators, if_neg hlevel]
    rw [runnerLoop_errored]
    simp [hany]

/-- Witness for C5: one unregistered validator under WARNING policy. -/
theorem executeValidators_unimplemented_witness :
    (executeValidators emptyRegistry ValidationLevel.warning
        [sampleCfg]).1.errored = true ∧
    (executeValidators emptyRegistry ValidationLevel.warning
        [sampleCfg]).2.isSome = true :=
  executeValidators_unimplemented emptyRegistry ValidationLevel.warning
    [sampleCfg] sampleCfg
    (by decide) (List.mem_singleton.2 rfl) rfl

theorem lookupKey_isSome_iff (m : List (Str × α)) (k : Str) :
    (lookupKey m k).isSome = true ↔ k ∈ keysOf m := by
  induction m with
  | nil => exact ⟨fun h => Bool.noConfusion h, fun h => nomatch h⟩
  | cons p rest ih =>
    obtain ⟨k', v⟩ := p
    show (if k' = k then some v else lookupKey rest k).isSome = true ↔
      k ∈ k' :: keysOf rest
    by_cases h : k' = k
    · subst h
      rw [if_pos rfl]
      exact ⟨fun _ => List.mem_cons_self _ _, fun _ => rfl⟩
    · rw [if_neg h]
      constructor
      · intro hs
        exact List.mem_cons_of_mem _ (ih.1 hs)
      · intro hm
        rcases List.mem_cons.1 hm with hh | hh
        · exact absurd hh.symm h
        · exact ih.2 hh

/-- The two failure modes of `testInputList`, tagging the error strings
built by the Go code. -/
inductive InputListErr where
  /-- Go error "at least one required input was not provided to %s". -/
  | missingRequired (function : Str)
  /-- Go error "only %v inputs %s should be provided to %s". -/
  | wrongCount (function : Str)
deriving DecidableEq

/-- Embedding of `testInputList(function string, inputs
map[string]interface{}, requiredInputs []string) error` from
`validate.go`. -/
def testInputList (function : Str) (inputs : GoMap)
    (requiredInputs : List Str) : Option InputListErr :=
  if requiredInputs.any (fun r => (lookupKey inputs r).isNone) then
    some (.missingRequired function)
  else if requiredInputs.length ≠ inputs.length then
    some (.wrongCount function)
  else
    none

/-- Counterexample to C4 as stated: with the duplicated required-input name
list `["a", "a"]` and the two-key input map `{a, b}`, `testInputList`
succeeds although the provided key set differs from the required name set
(`"b"` is an extra provided name, yet no error results). -/
theorem testInputList_setEq_cex :
    testInputList (strL "f")
        [(strL "a", GoValue.nil), (strL "b", GoValue.nil)]
        [strL "a", strL "a"] = none ∧
    strL "b" ∈ keysOf [(strL "a", GoValue.nil), (strL "b", GoValue.nil)] ∧
    strL "b" ∉ [strL "a", strL "a"] := by
  refine ⟨by decide, by decide, by decide⟩

/-- C4 (amended: the required-input name list must be duplicate-free, as it
is for every built-in validator; the provided input keys are pairwise
distinct because Go maps cannot repeat a key): `testInputList` returns nil
exactly when the set of provided input keys equals the set of required
input names, so one missing required name or one extra provided name always
yields an error. -/
theorem testInputList_setEq (function : Str) (inputs : GoMap)
    (requiredInputs : List Str) (hkeys : (keysOf inputs).Nodup)
    (hreq : requiredInputs.Nodup) :
    testInputList function inputs requiredInputs = none ↔
      ∀ k, k ∈ keysOf inputs ↔ k ∈ requiredInputs := by
  have hlen : (keysOf inputs).length = inputs.length := by
    simp [keysOf]
  constructor
  · intro h
    unfold testInputList at h
    split_ifs at h with h1 h2
    have hsub : requiredInputs ⊆ keysOf inputs := by
      intro r hr
      cases hlk : lookupKey inputs r with
      | none =>
        exact absurd (List.any_eq_true.2 ⟨r, hr, by rw [hlk]; rfl⟩) h1
      | some v =>
        rw [← lookupKey_isSome_iff, hlk]
        rfl
    have hsp := List.subperm_of_subset hreq hsub
    have hperm : requiredInputs.Perm (keysOf inputs) :=
      hsp.perm_of_length_le (by omega)
    intro k
    exact (hperm.mem_iff (a := k)).symm
  · intro h
    have hsub₁ : requiredInputs ⊆ keysOf inputs := fun r hr => (h r).2 hr
    have hsub₂ : keysOf inputs ⊆ requiredInputs := fun k hk => (h k).1 hk
    have hperm : requiredInputs.Perm (keysOf inputs) :=
      (List.subperm_of_subset hreq hsub₁).antisymm
        (List.subperm_of_subset hkeys hsub₂)
    have hlen2 : requiredInputs.length = inputs.length := by
      rw [hperm.length_eq, hlen]
    have hnomiss :
        requiredInputs.any (fun r => (lookupKey inputs r).isNone) = false := by
      rw [List.any_eq_false]
      intro r hr
      have : (lookupKey inputs r).isSome = true :=
        (lookupKey_isSome_iff inputs r).2 (hsub₁ hr)
      cases hlk : lookupKey inputs r with
      | none => rw [hlk] at this; exact absurd this (by simp)
      | some v => simp
    unfold testInputList
    rw [hnomiss]
    simp [hlen2]

/-- Witness for C4 at a concrete input: `{project_id}` against
`["project_id"]` succeeds, and the iff certifies set equality. -/
theorem testInputList_setEq_witness :
    testInputList (strL "test_project_exists")
        [(strL "project_id", GoValue.str (strL "p"))]
        [strL "project_id"] = none ↔
      ∀ k, k ∈ keysOf [(strL "project_id", GoValue.str (strL "p"))] ↔
        k ∈ [strL "project_id"] :=
  testInputList_setEq (strL "test_project_exists")
    [(strL "project_id", GoValue.str (strL "p"))]
    [strL "project_id"] (by decide) (by decide)

/-! ### `validateVars` (global deployment variables) -/

/-- The Go type assertion `labels.(map[string]interface{})` succeeds
exactly on object-kind values. -/
def GoValue.isObjectMap : GoValue → Bool
  | .object _ => true
  | _ => false

/-- The two hard failure modes of `validateVars` (the missing `project_id`
case is only logged, not returned). -/
inductive VarsErr where
  /-- Go error "vars.labels must be a map". -/
  | labelsNotMap : VarsErr
  /-- Go error "deployment variable %s was not set". -/
  | nilVar (key : Str) : VarsErr
deriving DecidableEq

/-- The `for key, val := range vars` nil-check loop of `validateVars`. -/
def checkNilVars : GoMap → Option VarsErr
  | [] => none
  | (k, v) :: rest =>
    match v with
    | .nil => some (.nilVar k)
    | _ => checkNilVars rest

/-- Embedding of `(dc DeploymentConfig) validateVars() error` from
`validate.go`: the `project_id` presence check only logs a warning and is
invisible in the returned value; the `labels` entry, when present, must be
a mapping; then every entry is checked for a nil value. -/
def validateVars (vars : GoMap) : Option VarsErr :=
  match lookupKey vars (strL "labels") with
  | some labels =>
    if labels.isObjectMap then checkNilVars vars else some .labelsNotMap
  | none => checkNilVars vars

theorem checkNilVars_eq_none (vars : GoMap)
    (h : ∀ kv ∈ vars, kv.2 ≠ GoValue.nil) : checkNilVars vars = none := by
  induction vars with
  | nil => rfl
  | cons kv rest ih =>
    obtain ⟨k, v⟩ := kv
    cases v with
    | nil => exact absurd rfl (h (k, GoValue.nil) (List.mem_cons_self _ _))
    | str s => exact ih fun kv hkv => h kv (List.mem_cons_of_mem _ hkv)
    | boolean b => exact ih fun kv hkv => h kv (List.mem_cons_of_mem _ hkv)
    | num n => exact ih fun kv hkv => h kv (List.mem_cons_of_mem _ hkv)
    | object f => exact ih fun kv hkv => h kv (List.mem_cons_of_mem _ hkv)
    | tuple e => exact ih fun kv hkv => h kv (List.mem_cons_of_mem _ hkv)

theorem checkNilVars_of_mem (vars : GoMap) (k : Str)
    (h : (k, GoValue.nil) ∈ vars) :
    ∃ k', checkNilVars vars = some (.nilVar k') ∧
      (k', GoValue.nil) ∈ vars := by
  induction vars with
  | nil => exact absurd h (List.not_mem_nil _)
  | cons kv rest ih =>
    obtain ⟨k0, v0⟩ := kv
    cases hv : v0 with
    | nil => exact ⟨k0, rfl, List.mem_cons_self _ _⟩
    | str s =>
      rcases List.mem_cons.1 h with hh | hh
      · rw [hv] at hh; cases hh
      · obtain ⟨k', hk', hmem⟩ := ih hh
        exact ⟨k', hk', List.mem_cons_of_mem _ hmem⟩
    | boolean b =>
      rcases List.mem_cons.1 h with hh | hh
      · rw [hv] at hh; cases hh
      · obtain ⟨k', hk', hmem⟩ := ih hh
        exact ⟨k', hk', List.mem_cons_of_mem _ hmem⟩
    | num n =>
      rcases List.mem_cons.1 h with hh | hh
      · rw [hv] at hh; cases hh
      · obtain ⟨k', hk', hmem⟩ := ih hh
        exact ⟨k', hk', List.mem_cons_of_mem _ hmem⟩
    | object f =>
      rcases List.mem_cons.1 h with hh | hh
      · rw [hv] at hh; cases hh
      · obtain ⟨k', hk', hmem⟩ := ih hh
        exact ⟨k', hk', List.mem_cons_of_mem _ hmem⟩
    | tuple e =>
      rcases List.mem_cons.1 h with hh | hh
      · rw [hv] at hh; cases hh
      · obtain ⟨k', hk', hmem⟩ := ih hh
        exact ⟨k', hk', List.mem_cons_of_mem _ hmem⟩

/-- C8: `validateVars` returns nil when `project_id` is absent but
everything else is well-formed (the absence is only logged); it returns the
labels error when a `labels` entry exists and is not a mapping; and, when
the `labels` entry (if any) is a mapping, it returns an error naming a key
bound to nil whenever some variable's value is nil. -/
theorem validateVars_spec (vars : GoMap) :
    (lookupKey vars (strL "project_id") = none →
      (∀ l, lookupKey vars (strL "labels") = some l →
        l.isObjectMap = true) →
      (∀ kv ∈ vars, kv.2 ≠ GoValue.nil) →
      validateVars vars = none) ∧
    (∀ l, lookupKey vars (strL "labels") = some l →
      l.isObjectMap = false → validateVars vars = some .labelsNotMap) ∧
    ((∀ l, lookupKey vars (strL "labels") = some l →
        l.isObjectMap = true) →
      ∀ k, (k, GoValue.nil) ∈ vars →
        ∃ k', validateVars vars = some (.nilVar k') ∧
          (k', GoValue.nil) ∈ vars) := by
  refine ⟨?_, ?_, ?_⟩
  · intro _ hlabels hnil
    unfold validateVars
    cases hlk : lookupKey vars (strL "labels") with
    | none => exact checkNilVars_eq_none vars hnil
    | some l =>
      show (if l.isObjectMap = true then checkNilVars vars
        else some VarsErr.labelsNotMap) = none
      rw [if_pos (hlabels l hlk)]
      exact checkNilVars_eq_none vars hnil
  · intro l hlk hmap
    unfold validateVars
    rw [hlk]
    show (if l.isObjectMap = true then checkNilVars vars
      else some VarsErr.labelsNotMap) = some VarsErr.labelsNotMap
    rw [hmap]
    simp
  · intro hlabels k hmem
    unfold validateVars
    cases hlk : lookupKey vars (strL "labels") with
    | none => exact checkNilVars_of_mem vars k hmem
    | some l =>
      show ∃ k', (if l.isObjectMap = true then checkNilVars vars
        else some VarsErr.labelsNotMap) = some (VarsErr.nilVar k') ∧
          (k', GoValue.nil) ∈ vars
      rw [if_pos (hlabels l hlk)]
      exact checkNilVars_of_mem vars k hmem

/-- Witness for C8 at concrete variable tables. -/
theorem validateVars_spec_witness :
    validateVars [(strL "labels", GoValue.object []),
        (strL "zone", GoValue.str (strL "z"))] = none ∧
    validateVars [(strL "labels", GoValue.str (strL "x"))] =
      some .labelsNotMap ∧
    (∃ k', validateVars [(strL "a", GoValue.nil)] =
        some (.nilVar k') ∧
      (k', GoValue.nil) ∈ [(strL "a", GoValue.nil)]) := by
  refine ⟨?_, ?_, ?_⟩
  · exact (validateVars_spec _).1 rfl
      (fun l hl => by rw [show l = GoValue.object [] from
        Option.some.inj hl.symm ▸ rfl]; rfl)
      (fun kv hkv => by
        rcases List.mem_cons.1 hkv with hh | hh
        · rw [hh]; intro hc; cases hc
        · rcases List.mem_cons.1 hh with hh2 | hh2
          · rw [hh2]; intro hc; cases hc
          · exact absurd hh2 (List.not_mem_nil _))
  · exact (validateVars_spec _).2.1 (GoValue.str (strL "x")) rfl rfl
  · exact (validateVars_spec _).2.2
      (fun l hl => by cases hl) (strL "a") (List.mem_singleton.2 rfl)

/-! ### Modules, schemas and the structural validators -/

/-- Embedding of `modulereader.VarInfo` as used by `validate.go`: a
declared input or output with its name and required flag. -/
structure VarInfo where
  Name : Str
  Required : Bool

/-- Embedding of `modulereader.ModuleInfo`: the module schema supplied by
the module-reader collaborator. -/
structure ModuleInfo where
  Inputs : List VarInfo
  Outputs : List VarInfo

/-- Modelled from the spec: `modulereader.ModuleInfo.GetOutputsAsMap`
(module-reader collaborator, not among the provided source files) — the
schema's outputs as a mapping keyed by output name. -/
def GetOutputsAsMap (info : ModuleInfo) : List (Str × VarInfo) :=
  info.Outputs.map (fun v => (v.Name, v))

/-- Embedding of `Module` as read by the structural validators. -/
structure Module where
  ID : Str
  Source : Str
  Kind : Str
  Settings : GoMap
  Outputs : List Str

/-- Embedding of `DeploymentGroup`. -/
structure DeploymentGroup where
  Name : Str
  Modules : List Module

/-- Modelled from the spec: `modulereader.IsValidKind` (module-reader
collaborator, not among the provided source files) tests membership in the
closed enumeration of recognized module kinds, which is passed here as an
explicit parameter. -/
def IsValidKind (kinds : List Str) (kind : Str) : Bool :=
  decide (kind ∈ kinds)

/-- The failure modes of `validateModule` and `validateOutputs`
(`errorMessages["emptyID"|"emptySource"|"wrongKind"|"invalidOutput"]`);
the first three embed the offending module's dump, the last names the
module ID and the offending output. -/
inductive ModulesErr where
  | emptyID (m : Module) : ModulesErr
  | emptySource (m : Module) : ModulesErr
  | wrongKind (m : Module) : ModulesErr
  | invalidOutput (id : Str) (output : Str) : ModulesErr

/-- Embedding of `validateModule(c Module) error` from `validate.go`. -/
def validateModule (kinds : List Str) (c : Module) : Option ModulesErr :=
  if c.ID = [] then some (.emptyID c)
  else if c.Source = [] then some (.emptySource c)
  else if IsValidKind kinds c.Kind then none
  else some (.wrongKind c)

/-- The `for _, output := range mod.Outputs` loop of `validateOutputs`. -/
def checkOutputsLoop (id : Str) (outputsMap : List (Str × VarInfo)) :
    List Str → Option ModulesErr
  | [] => none
  | output :: rest =>
    if (lookupKey outputsMap output).isSome then
      checkOutputsLoop id outputsMap rest
    else
      some (.invalidOutput id output)

/-- Embedding of `validateOutputs(mod Module, modInfo
modulereader.ModuleInfo) error` from `validate.go` (the outputs map is only
built when the module requests outputs; a nil map makes every lookup
miss). -/
def validateOutputs (mod : Module) (modInfo : ModuleInfo) :
    Option ModulesErr :=
  checkOutputsLoop mod.ID
    (if 0 < mod.Outputs.length then GetOutputsAsMap modInfo else [])
    mod.Outputs

/-- Embedding of the `dc.ModulesInfo[grp.Name][mod.Source]` double map
read: a missing entry yields the zero `ModuleInfo` (empty schema), as a Go
map read does. -/
def lookupModuleInfo (minfo : List (Str × List (Str × ModuleInfo)))
    (grpName source : Str) : ModuleInfo :=
  ((lookupKey minfo grpName).bind (fun m => lookupKey m source)).getD
    ⟨[], []⟩

/-- The inner `for _, mod := range grp.Modules` loop of
`validateModules`. -/
def validateModulesLoop (kinds : List Str)
    (minfo : List (Str × List (Str × ModuleInfo))) (grpName : Str) :
    List Module → Option ModulesErr
  | [] => none
  | mod :: rest =>
    match validateModule kinds mod with
    | some e => some e
    | none =>
      match validateOutputs mod (lookupModuleInfo minfo grpName
          mod.Source) with
      | some e => some e
      | none => validateModulesLoop kinds minfo grpName rest

/-- Embedding of `(dc DeploymentConfig) validateModules() error` from
`validate.go`. -/
def validateModules (kinds : List Str)
    (minfo : List (Str × List (Str × ModuleInfo))) :
    List DeploymentGroup → Option ModulesErr
  | [] => none
  | grp :: rest =>
    match validateModulesLoop kinds minfo grp.Name grp.Modules with
    | some e => some e
    | none => validateModules kinds minfo rest

/-- The combined per-module check performed inside `validateModules`. -/
def moduleCheck (kinds : List Str)
    (minfo : List (Str × List (Str × ModuleInfo))) (grpName : Str)
    (mod : Module) : Option ModulesErr :=
  match validateModule kinds mod with
  | some e => some e
  | none => validateOutputs mod (lookupModuleInfo minfo grpName mod.Source)

/-- All modules of a blueprint in document order, each paired with its
group's name. -/
def docModules (groups : List DeploymentGroup) : List (Str × Module) :=
  groups.flatMap (fun g => g.Modules.map (fun m => (g.Name, m)))

theorem keysOf_getOutputsAsMap (info : ModuleInfo) :
    keysOf (GetOutputsAsMap info) = info.Outputs.map VarInfo.Name := by
  simp [keysOf, GetOutputsAsMap, List.map_map, Function.comp]

theorem checkOutputsLoop_eq_none_iff (id : Str)
    (om : List (Str × VarInfo)) (outs : List Str) :
    checkOutputsLoop id om outs = none ↔
      ∀ o ∈ outs, (lookupKey om o).isSome = true := by
  induction outs with
  | nil => simp [checkOutputsLoop]
  | cons o rest ih =>
    by_cases h : (lookupKey om o).isSome = true
    · simp [checkOutputsLoop, h, ih]
    · simp [checkOutputsLoop, h]

theorem checkOutputsLoop_first (id : Str) (om : List (Str × VarInfo))
    (pre : List Str) (o : Str) (post : List Str)
    (hpre : ∀ o' ∈ pre, (lookupKey om o').isSome = true)
    (ho : (lookupKey om o).isSome = false) :
    checkOutputsLoop id om (pre ++ o :: post) =
      some (.invalidOutput id o) := by
  induction pre with
  | nil => simp [checkOutputsLoop, ho]
  | cons p rest ih =>
    have hp := hpre p (List.mem_cons_self _ _)
    rw [List.cons_append]
    unfold checkOutputsLoop
    rw [if_pos hp]
    exact ih fun o' h => hpre o' (List.mem_cons_of_mem _ h)

theorem validateModulesLoop_eq (kinds : List Str)
    (minfo : List (Str × List (Str × ModuleInfo))) (grpName : Str)
    (ms : List Module) :
    validateModulesLoop kinds minfo grpName ms =
      ms.findSome? (moduleCheck kinds minfo grpName) := by
  induction ms with
  | nil => rfl
  | cons m rest ih =>
    rw [List.findSome?_cons]
    unfold validateModulesLoop moduleCheck
    cases h : validateModule kinds m with
    | some e => rfl
    | none =>
      cases h2 : validateOutputs m (lookupModuleInfo minfo grpName
          m.Source) with
      | some e => rfl
      | none => exact ih

theorem validateModules_eq (kinds : List Str)
    (minfo : List (Str × List (Str × ModuleInfo)))
    (groups : List DeploymentGroup) :
    validateModules kinds minfo groups =
      (docModules groups).findSome?
        (fun gm => moduleCheck kinds minfo gm.1 gm.2) := by
  induction groups with
  | nil => rfl
  | cons g rest ih =>
    show (match validateModulesLoop kinds minfo g.Name g.Modules with
      | some e => some e
      | none => validateModules kinds minfo rest) =
      (docModules (g :: rest)).findSome?
        (fun gm => moduleCheck kinds minfo gm.1 gm.2)
    have hdoc : docModules (g :: rest) =
        g.Modules.map (fun m => (g.Name, m)) ++ docModules rest := by
      simp [docModules]
    rw [hdoc, List.findSome?_append, List.findSome?_map,
      validateModulesLoop_eq]
    have hcomp : ((fun gm : Str × Module =>
        moduleCheck kinds minfo gm.1 gm.2) ∘ fun m => (g.Name, m)) =
        moduleCheck kinds minfo g.Name := rfl
    rw [hcomp]
    cases h : g.Modules.findSome? (moduleCheck kinds minfo g.Name) with
    | some e => rfl
    | none =>
      show validateModules kinds minfo rest = _
      rw [ih]
      rfl

/-- C7: `validateOutputs` returns nil iff every requested output appears
among the schema's outputs; on the first missing output (all earlier ones
present) it fails with an error naming the module ID and that output; and
`validateModules` returns the first per-module failure over the modules in
document order (`findSome?` stops at the first error, so later modules are
not aggregated). -/
theorem validateOutputs_spec (mod : Module) (modInfo : ModuleInfo)
    (kinds : List Str) (minfo : List (Str × List (Str × ModuleInfo)))
    (groups : List DeploymentGroup) :
    (validateOutputs mod modInfo = none ↔
      ∀ o ∈ mod.Outputs, o ∈ modInfo.Outputs.map VarInfo.Name) ∧
    (∀ pre o post, mod.Outputs = pre ++ o :: post →
      (∀ o' ∈ pre, o' ∈ modInfo.Outputs.map VarInfo.Name) →
      o ∉ modInfo.Outputs.map VarInfo.Name →
      validateOutputs mod modInfo =
        some (.invalidOutput mod.ID o)) ∧
    validateModules kinds minfo groups =
      (docModules groups).findSome?
        (fun gm => moduleCheck kinds minfo gm.1 gm.2) := by
  have hmem : ∀ o, (lookupKey (GetOutputsAsMap modInfo) o).isSome = true ↔
      o ∈ modInfo.Outputs.map VarInfo.Name := by
    intro o
    rw [lookupKey_isSome_iff, keysOf_getOutputsAsMap]
  refine ⟨?_, ?_, validateModules_eq kinds minfo groups⟩
  · unfold validateOutputs
    by_cases h : 0 < mod.Outputs.length
    · rw [if_pos h, checkOutputsLoop_eq_none_iff]
      constructor
      · intro hall o ho
        exact (hmem o).1 (hall o ho)
      · intro hall o ho
        exact (hmem o).2 (hall o ho)
    · have hnil : mod.Outputs = [] := by
        cases hh : mod.Outputs with
        | nil => rfl
        | cons a t => rw [hh] at h; simp at h
      rw [if_neg h, hnil]
      simp [checkOutputsLoop]
  · intro pre o post heq hpre ho
    have hlen : 0 < mod.Outputs.length := by
      rw [heq]
      simp
    unfold validateOutputs
    rw [if_pos hlen, heq]
    refine checkOutputsLoop_first mod.ID _ pre o post ?_ ?_
    · intro o' h'
      exact (hmem o').2 (hpre o' h')
    · cases hb : (lookupKey (GetOutputsAsMap modInfo) o).isSome with
      | false => rfl
      | true => exact absurd ((hmem o).1 hb) ho

/-- A concrete module requesting output `foo`, for witnesses. -/
def modFoo : Module :=
  { ID := strL "m1", Source := strL "./mods/a", Kind := strL "terraform",
    Settings := [], Outputs := [strL "foo"] }

/-- A concrete schema exposing only output `bar`, for witnesses. -/
def infoBar : ModuleInfo :=
  { Inputs := [], Outputs := [{ Name := strL "bar", Required := false }] }

/-- Witness for C7: module `m1` requests `foo` but the schema only has
`bar`, so `validateOutputs` names `m1` and `foo`; plus concrete instances
of the iff and of the `validateModules` characterization. -/
theorem validateOutputs_spec_witness :
    (validateOutputs modFoo infoBar = none ↔
      ∀ o ∈ modFoo.Outputs, o ∈ infoBar.Outputs.map VarInfo.Name) ∧
    validateOutputs modFoo infoBar =
      some (.invalidOutput (strL "m1") (strL "foo")) ∧
    validateModules [strL "terraform"] [] [⟨strL "g", [modFoo]⟩] =
      (docModules [⟨strL "g", [modFoo]⟩]).findSome?
        (fun gm => moduleCheck [strL "terraform"] [] gm.1 gm.2) := by
  have h := validateOutputs_spec modFoo infoBar [strL "terraform"] []
    [⟨strL "g", [modFoo]⟩]
  refine ⟨h.1, ?_, h.2.2⟩
  exact h.2.1 [] (strL "foo") [] rfl (fun o' h' => absurd h'
    (List.not_mem_nil _)) (by decide)

/-! ### `validateSettings` -/

/-- The failure mode of `validateSettings`
(`errorMessages["extraSetting"]`), naming the module ID and the key. -/
inductive SettingsErr where
  | extraSetting (id : Str) (key : Str) : SettingsErr
deriving DecidableEq

/-- The `for k := range mod.Settings` loop of `validateSettings`, checking
each settings key against the declared-inputs map. -/
def settingsLoop (id : Str) (inputsMap : List (Str × Bool)) :
    List (Str × GoValue) → Option SettingsErr
  | [] => none
  | (k, _) :: rest =>
    if (lookupKey inputsMap k).isSome then settingsLoop id inputsMap rest
    else some (.extraSetting id k)

/-- Embedding of `validateSettings(mod Module, info
modulereader.ModuleInfo) error` from `validate.go`: builds the map from
declared input name to its required flag, then rejects any settings key
that is not a declared input. -/
def validateSettings (mod : Module) (info : ModuleInfo) :
    Option SettingsErr :=
  settingsLoop mod.ID (info.Inputs.map (fun i => (i.Name, i.Required)))
    mod.Settings

theorem keysOf_inputsMap (info : ModuleInfo) :
    keysOf (info.Inputs.map (fun i => (i.Name, i.Required))) =
      info.Inputs.map VarInfo.Name := by
  simp [keysOf, List.map_map, Function.comp]

theorem settingsLoop_eq_none_iff (id : Str) (im : List (Str × Bool))
    (settings : List (Str × GoValue)) :
    settingsLoop id im settings = none ↔
      ∀ k ∈ keysOf settings, (lookupKey im k).isSome = true := by
  induction settings with
  | nil => simp [settingsLoop, keysOf]
  | cons kv rest ih =>
    obtain ⟨k, v⟩ := kv
    show (if (lookupKey im k).isSome then settingsLoop id im rest
      else some (.extraSetting id k)) = none ↔
      ∀ k' ∈ k :: keysOf rest, (lookupKey im k').isSome = true
    by_cases h : (lookupKey im k).isSome = true
    · simp [h, ih]
    · simp [h]

theorem settingsLoop_some (id : Str) (im : List (Str × Bool))
    (settings : List (Str × GoValue)) (e : SettingsErr)
    (h : settingsLoop id im settings = some e) :
    ∃ k, e = .extraSetting id k ∧ k ∈ keysOf settings ∧
      (lookupKey im k).isSome = false := by
  induction settings with
  | nil => exact absurd h (by simp [settingsLoop])
  | cons kv rest ih =>
    obtain ⟨k, v⟩ := kv
    by_cases hk : (lookupKey im k).isSome = true
    · have h' : settingsLoop id im rest = some e := by
        rw [settingsLoop, if_pos hk] at h
        exact h
      obtain ⟨k', he, hmem, hfalse⟩ := ih h'
      exact ⟨k', he, List.mem_cons_of_mem _ hmem, hfalse⟩
    · have he : some (SettingsErr.extraSetting id k) = some e := by
        rw [settingsLoop, if_neg hk] at h
        exact h
      refine ⟨k, (Option.some.inj he).symm, List.mem_cons_self _ _, ?_⟩
      cases hb : (lookupKey im k).isSome with
      | false => rfl
      | true => exact absurd hb hk

/-- C6: `validateSettings` returns nil exactly when every settings key is a
declared input name (in particular the values of the settings are never
inspected, and required inputs absent from the settings are not reported);
any error it returns is the extra-setting error naming the module ID and a
settings key that is not a declared input. -/
theorem validateSettings_spec (mod : Module) (info : ModuleInfo) :
    (validateSettings mod info = none ↔
      ∀ k ∈ keysOf mod.Settings, k ∈ info.Inputs.map VarInfo.Name) ∧
    (∀ e, validateSettings mod info = some e →
      ∃ k, e = SettingsErr.extraSetting mod.ID k ∧
        k ∈ keysOf mod.Settings ∧
        k ∉ info.Inputs.map VarInfo.Name) := by
  have hmem : ∀ k,
      (lookupKey (info.Inputs.map (fun i => (i.Name, i.Required)))
        k).isSome = true ↔ k ∈ info.Inputs.map VarInfo.Name := by
    intro k
    rw [lookupKey_isSome_iff, keysOf_inputsMap]
  constructor
  · rw [validateSettings, settingsLoop_eq_none_iff]
    constructor
    · intro hall k hk
      exact (hmem k).1 (hall k hk)
    · intro hall k hk
      exact (hmem k).2 (hall k hk)
  · intro e he
    obtain ⟨k, hke, hmemk, hfalse⟩ := settingsLoop_some _ _ _ _ he
    refine ⟨k, hke, hmemk, ?_⟩
    intro hc
    rw [(hmem k).2 hc] at hfalse
    exact Bool.noConfusion hfalse

/-- A module with one setting `bad` and no declared inputs, plus a schema
declaring a required input `need`: for witnesses. -/
def modBad : Module :=
  { ID := strL "m2", Source := strL "./mods/b", Kind := strL "terraform",
    Settings := [(strL "bad", GoValue.str (strL "v"))], Outputs := [] }

/-- A schema declaring only the required input `need`, for witnesses. -/
def infoNeed : ModuleInfo :=
  { Inputs := [{ Name := strL "need", Required := true }], Outputs := [] }

/-- Witness for C6: the iff at a module whose only settings key is not
declared, and the extra-setting error it produces names `m2` and `bad`;
also the nil case for a module with no settings even though the required
input `need` is absent. -/
theorem validateSettings_spec_witness :
    (∃ k, SettingsErr.extraSetting (strL "m2") (strL "bad") =
        SettingsErr.extraSetting (strL "m2") k ∧
      k ∈ keysOf modBad.Settings ∧
      k ∉ infoNeed.Inputs.map VarInfo.Name) ∧
    validateSettings { modBad with Settings := [] } infoNeed = none := by
  constructor
  · exact (validateSettings_spec modBad infoNeed).2
      (SettingsErr.extraSetting (strL "m2") (strL "bad")) (by rfl)
  · exact (validateSettings_spec { modBad with Settings := [] }
      infoNeed).1.2 (fun k hk => absurd hk (List.not_mem_nil _))

/-! ### The `Dict` container (`dict.go`) -/

/-- Embedding of the `Dict` container from `dict.go`: a map from string
key to typed value whose backing Go map may be nil (`none`) — the struct's
zero value.  The stored values (`cty.Value`) are embedded by the same
tagged value algebra `GoValue`, with `GoValue.nil` standing for the zero
value `cty.NilVal`. -/
structure Dict where
  m : Option (List (Str × GoValue))

/-- The zero value `Dict{}` (nil backing map). -/
def Dict.zero : Dict := ⟨none⟩

/-- Embedding of `(d *Dict) Get(k string) cty.Value`: `cty.NilVal` on a
nil map; a Go map read otherwise (a missing key also yields the zero value
`cty.NilVal`). -/
def Dict.Get (d : Dict) (k : Str) : GoValue :=
  match d.m with
  | none => GoValue.nil
  | some mm => (lookupKey mm k).getD GoValue.nil

/-- Embedding of `(d *Dict) Has(k string) bool`. -/
def Dict.Has (d : Dict) (k : Str) : Bool :=
  match d.m with
  | none => false
  | some mm => (lookupKey mm k).isSome

/-- Insert-or-overwrite on the backing entry list. -/
def setEntry : List (Str × GoValue) → Str → GoValue →
    List (Str × GoValue)
  | [], k, v => [(k, v)]
  | (k', v') :: rest, k, v =>
    if k' = k then (k', v) :: rest else (k', v') :: setEntry rest k v

/-- Embedding of `(d *Dict) Set(k string, v cty.Value) *Dict`: initializes
the backing map when nil, then inserts or overrides; returns the updated
container (reference to self in Go). -/
def Dict.Set (d : Dict) (k : Str) (v : GoValue) : Dict :=
  match d.m with
  | none => ⟨some [(k, v)]⟩
  | some mm => ⟨some (setEntry mm k v)⟩

/-- Embedding of `(d *Dict) Items() map[string]cty.Value`: a copy of the
stored entries; empty (not nil) on a nil backing map. -/
def Dict.Items (d : Dict) : List (Str × GoValue) :=
  match d.m with
  | none => []
  | some mm => mm

/-- C9: on the zero-initialized `Dict`, `Get` returns the nil sentinel
`cty.NilVal` for every key, `Has` returns false, and `Items` returns an
empty mapping; all three are total functions of the zero value, so none of
them fails or panics. -/
theorem dict_zero_value (k : Str) :
    Dict.zero.Get k = GoValue.nil ∧ Dict.zero.Has k = false ∧
    Dict.zero.Items = [] :=
  ⟨rfl, rfl, rfl⟩

end HpcToolkit
